import Mathlib

/-!
Shallow embedding of the slide presentation tool (markdown parser,
renderer link/navigation state, startup) and proofs about the claims of
its specification.

Sources embedded:
- src/src/parser.ts        (parsePresentation, parseSlide, parseLine)
- src/src/renderer.ts      (PresentationRenderer: renderSlide link
                            registration, highlightLink, navigateLinks,
                            getSelectedLink)
- src/src/renderer.test.ts (center_multiline_text)
- src/src/presentation.ts  (main: startup behaviour)

Strings are modelled as lists of characters; JavaScript string methods
used by the source (split, trim, startsWith, substring, regex scanning)
are embedded as structurally recursive functions below.
-/

namespace Pres

/-- JavaScript strings modelled as lists of characters. -/
abbrev Chars := List Char

/-- Convenience coercion from Lean string literals. -/
def chars (s : String) : Chars := s.toList

/-- Whitespace test used by the model of String.prototype.trim. -/
def isWS (c : Char) : Bool := c.isWhitespace

/-- Model of JavaScript String.prototype.trim: strip whitespace from both
ends. -/
def trimChars (l : Chars) : Chars :=
  ((l.dropWhile isWS).reverse.dropWhile isWS).reverse

/-- Model of JavaScript String.prototype.split on a literal separator
pattern: leftmost, non-overlapping occurrences of the separator split the
string; the accumulator holds the current piece reversed and the output
pieces reversed.  Mirrors markdown.split(/\n---\n/) and split("\n") in
parser.ts. -/
def splitSubAux (sep : Chars) : Chars → Nat → Chars → List Chars → List Chars
  | [], _, acc, out => (acc.reverse :: out).reverse
  | _ :: rest, Nat.succ k, acc, out => splitSubAux sep rest k acc out
  | c :: rest, 0, acc, out =>
    if sep.isPrefixOf (c :: rest) then
      splitSubAux sep rest (sep.length - 1) [] (acc.reverse :: out)
    else
      splitSubAux sep rest 0 (c :: acc) out

/-- Split a string on every occurrence of a (non-empty) separator
substring, as JavaScript split does. -/
def splitOnSubstr (sep : Chars) (s : Chars) : List Chars :=
  splitSubAux sep s 0 [] []

/-- Inline fragment: the TypeScript union Text | Link produced by
parseLine in parser.ts.  A Text's optional bold flag is a Bool (absent
means false). -/
inductive Frag where
  | text (content : Chars) (bold : Bool)
  | link (text url : Chars)
  deriving Repr, DecidableEq

/-- The SlideElement union of parser.ts:
Heading | Text | BulletList | Image | Link. -/
inductive SlideElement where
  | heading (level : Nat) (content : Chars)
  | text (content : Chars) (bold : Bool)
  | bullets (items : List (List Frag))
  | image (alt filename : Chars)
  | link (text url : Chars)
  deriving Repr, DecidableEq

/-- The Slide interface of parser.ts: a title and an ordered element
list.  (The interface has no frontmatter field.) -/
structure Slide where
  title : Chars
  elements : List SlideElement
  deriving Repr, DecidableEq

/-- Inject a parseLine fragment into the slide-element union, as the
spread currentSlide.elements.push(...parsedLine) does in parseSlide. -/
def fragToElement : Frag → SlideElement
  | Frag.text c b => SlideElement.text c b
  | Frag.link t u => SlideElement.link t u

/-- Match the link alternative of the parseLine regex at the start of the
string.  Mirrors the pattern fragment for links: an opening bracket, a
non-empty run of characters other than a closing bracket, the bracket
pair, then a non-empty run of characters other than a closing
parenthesis, closed by one.  Returns link text, url and the rest of the
string. -/
def matchLink : Chars → Option (Chars × Chars × Chars)
  | '[' :: rest =>
    match rest.span (fun c => c ≠ ']') with
    | (t, ']' :: '(' :: r2) =>
      if t = [] then none
      else
        match r2.span (fun c => c ≠ ')') with
        | (u, ')' :: r4) => if u = [] then none else some (t, u, r4)
        | _ => none
    | _ => none
  | _ => none

/-- Match the bold alternative of the parseLine regex at the start of the
string: two asterisks, a non-empty run of non-asterisk characters, two
asterisks.  Returns the bold text and the rest of the string. -/
def matchBold : Chars → Option (Chars × Chars)
  | '*' :: '*' :: rest =>
    match rest.span (fun c => c ≠ '*') with
    | (b, '*' :: '*' :: r2) => if b = [] then none else some (b, r2)
    | _ => none
  | _ => none

/-- Flush the pending plain-text accumulator (held reversed) onto the
reversed fragment list, skipping empty text as the source's
if (text) checks do. -/
def flushText (pend : Chars) (acc : List Frag) : List Frag :=
  if pend = [] then acc else Frag.text pend.reverse false :: acc

/-- Scanner for parseLine: walk the line one character at a time; at each
position not inside an already-consumed match, try the link pattern, then
the bold pattern (the regex alternation order); unmatched characters
accumulate as pending plain text.  The Nat argument counts characters of
a found match still to be skipped; pend and acc are reversed. -/
def parseLineAux : Chars → Nat → Chars → List Frag → List Frag
  | [], _, pend, acc => (flushText pend acc).reverse
  | _ :: rest, Nat.succ k, pend, acc => parseLineAux rest k pend acc
  | c :: rest, 0, pend, acc =>
    match matchLink (c :: rest) with
    | some (t, u, r) =>
      parseLineAux rest ((c :: rest).length - r.length - 1) []
        (Frag.link t u :: flushText pend acc)
    | none =>
      match matchBold (c :: rest) with
      | some (b, r) =>
        parseLineAux rest ((c :: rest).length - r.length - 1) []
          (Frag.text b true :: flushText pend acc)
      | none => parseLineAux rest 0 (c :: pend) acc

/-- parseLine of parser.ts: tokenize a line into links, bold text and
plain text; a line with no matches yields one plain text fragment holding
the whole content. -/
def parseLine (content : Chars) : List Frag :=
  let elements := parseLineAux content 0 [] []
  if elements = [] then [Frag.text content false] else elements

/-- Match the image regex of parseSlide, anchored at both ends:
an exclamation mark, a bracketed (possibly empty) alt text, then a
parenthesized non-empty filename ending the line. -/
def matchImage : Chars → Option (Chars × Chars)
  | '!' :: '[' :: rest =>
    match rest.span (fun c => c ≠ ']') with
    | (alt, ']' :: '(' :: r2) =>
      match r2.span (fun c => c ≠ ')') with
      | (fn, [')']) => if fn = [] then none else some (alt, fn)
      | _ => none
    | _ => none
  | _ => none

/-- The mutable parse state of parseSlide: the slide under construction
(null until a first non-blank line) and the currently open bullet list. -/
structure SlideAcc where
  cs : Option Slide
  cbl : Option (List (List Frag))
  deriving Repr, DecidableEq

/-- Flush an open bullet list into the slide's elements, as the repeated
currentSlide.elements.push(currentBulletList) sites do. -/
def pushBullets (s : Slide) (cbl : Option (List (List Frag))) : Slide :=
  match cbl with
  | some items => { s with elements := s.elements ++ [SlideElement.bullets items] }
  | none => s

/-- The "Initialize slide with empty title if no H1 found yet" step of
parseSlide: keep the slide under construction, or start one with an
empty title. -/
def processDefault : Option Slide → Slide
  | some s => s
  | none => { title := [], elements := [] }

/-- One iteration of the line loop of parseSlide, in the source's branch
order: blank line, H1, slide initialization, H2, H3, image, bullet,
plain text. -/
def processLine (st : SlideAcc) (line : Chars) : SlideAcc :=
  let trimmed := trimChars line
  if trimmed = [] then
    match st.cs, st.cbl with
    | some s, some items =>
      { cs := some (pushBullets s (some items)), cbl := none }
    | _, _ => st
  else if ['#', ' '].isPrefixOf trimmed then
    match st.cs with
    | none =>
      { cs := some { title := trimChars (trimmed.drop 2), elements := [] },
        cbl := st.cbl }
    | some s =>
      let s1 := pushBullets s st.cbl
      { cs := some { s1 with elements :=
          s1.elements ++ [SlideElement.heading 1 (trimChars (trimmed.drop 2))] },
        cbl := none }
  else
    let s0 : Slide := processDefault st.cs
    if ['#', '#', ' '].isPrefixOf trimmed then
      let s1 := pushBullets s0 st.cbl
      { cs := some { s1 with elements :=
          s1.elements ++ [SlideElement.heading 2 (trimChars (trimmed.drop 3))] },
        cbl := none }
    else if ['#', '#', '#', ' '].isPrefixOf trimmed then
      let s1 := pushBullets s0 st.cbl
      { cs := some { s1 with elements :=
          s1.elements ++ [SlideElement.heading 3 (trimChars (trimmed.drop 4))] },
        cbl := none }
    else
      match matchImage trimmed with
      | some (alt, fn) =>
        let s1 := pushBullets s0 st.cbl
        { cs := some { s1 with elements :=
            s1.elements ++ [SlideElement.image alt fn] },
          cbl := none }
      | none =>
        if ['-', ' '].isPrefixOf trimmed ∨ ['*', ' '].isPrefixOf trimmed then
          let item := parseLine (trimChars (trimmed.drop 2))
          { cs := some s0, cbl := some ((st.cbl.getD []) ++ [item]) }
        else
          let s1 := pushBullets s0 st.cbl
          { cs := some { s1 with elements :=
              s1.elements ++ (parseLine trimmed).map fragToElement },
            cbl := none }

/-- parseSlide of parser.ts: trim the block, split it into lines, run the
line loop, then flush a trailing open bullet list.  Returns none exactly
when no non-blank line created a slide. -/
def parseSlide (markdown : Chars) : Option Slide :=
  let lines := splitOnSubstr ['\n'] (trimChars markdown)
  if lines = [] then none
  else
    let st := lines.foldl processLine { cs := none, cbl := none }
    match st.cs with
    | some s => some (pushBullets s st.cbl)
    | none => none

/-- The slide separator pattern of parsePresentation. -/
def sepChars : Chars := chars "\n---\n"

/-- parsePresentation of parser.ts: split the document on the separator
and keep every block that parses to a slide, in order. -/
def parsePresentation (markdown : Chars) : List Slide :=
  (splitOnSubstr sepChars markdown).filterMap parseSlide

/-- Predicate for link fragments, mirroring the el.type checks of
renderer.ts. -/
def isLinkFrag : Frag → Bool
  | Frag.link _ _ => true
  | _ => false

/-- One entry of the renderer's navigable link list: the link's text and
url together with its box's current background colour. -/
structure LinkEntry where
  linkText : Chars
  url : Chars
  bg : String
  deriving Repr, DecidableEq

/-- Background colour of an unselected link box in renderer.ts. -/
def normalBg : String := "#16213e"

/-- Background colour of the selected link box in renderer.ts. -/
def selectedBg : String := "#e94560"

/-- The renderer state the claims are about: the navigable link list and
the selected index (a JavaScript number, modelled as Int). -/
structure RState where
  links : List LinkEntry
  selectedLinkIndex : Int
  deriving Repr, DecidableEq

/-- Link registration performed by renderElement's bullets case for one
bullet item: if some part of the item is a link, the first link found is
pushed (item.some then item.find in renderer.ts). -/
def linksOfItem (item : List Frag) : List LinkEntry :=
  if item.any isLinkFrag then
    match item.find? isLinkFrag with
    | some (Frag.link t u) => [{ linkText := t, url := u, bg := normalBg }]
    | _ => []
  else []

/-- Links registered by renderElement for one element: a top-level link
element pushes itself; a bullets element pushes at most one link per
item; other elements push nothing. -/
def renderElementLinks : SlideElement → List LinkEntry
  | SlideElement.link t u => [{ linkText := t, url := u, bg := normalBg }]
  | SlideElement.bullets items => items.flatMap linksOfItem
  | _ => []

/-- Set the background of the link at the given position to the selected
colour, modelling this.links[index].box.backgroundColor = "#e94560". -/
def markSelected : Nat → List LinkEntry → List LinkEntry
  | _, [] => []
  | 0, l :: ls => { l with bg := selectedBg } :: ls
  | Nat.succ k, l :: ls => l :: markSelected k ls

/-- highlightLink of renderer.ts: reset every link box to the normal
background, then, if the index is in range, highlight that link and store
it as selected; an out-of-range index leaves selectedLinkIndex
unchanged. -/
def highlightLink (st : RState) (index : Int) : RState :=
  let cleared := st.links.map (fun l => { l with bg := normalBg })
  if 0 ≤ index ∧ index < (cleared.length : Int) then
    { links := markSelected index.toNat cleared, selectedLinkIndex := index }
  else
    { st with links := cleared }

/-- The two navigation directions of navigateLinks. -/
inductive Direction where
  | up
  | down
  deriving Repr, DecidableEq

/-- navigateLinks of renderer.ts: a no-op on an empty link list;
otherwise move the selected index one step with wraparound and highlight
it.  The % here is Int.emod, which agrees with the JavaScript remainder
operator on the non-negative dividends that occur (selectedLinkIndex + 1
and selectedLinkIndex - 1 + length with a non-negative selected index). -/
def navigateLinks (st : RState) (d : Direction) : RState :=
  if st.links.length = 0 then st
  else
    let len : Int := st.links.length
    let idx : Int :=
      match d with
      | Direction.down => (st.selectedLinkIndex + 1) % len
      | Direction.up => (st.selectedLinkIndex - 1 + len) % len
    highlightLink { st with selectedLinkIndex := idx } idx

/-- getSelectedLink of renderer.ts: the selected link's text and url when
the selected index is in range, null otherwise. -/
def getSelectedLink (st : RState) : Option (Chars × Chars) :=
  if 0 ≤ st.selectedLinkIndex ∧ st.selectedLinkIndex < (st.links.length : Int) then
    (st.links.get? st.selectedLinkIndex.toNat).map fun l => (l.linkText, l.url)
  else none

/-- renderSlide of renderer.ts restricted to the state the claims are
about: the link list is cleared and the selected index reset, the
elements are laid out in order (each appending its registered links),
and, if any links were registered, the first is highlighted. -/
def renderSlideState (slide : Slide) : RState :=
  let st : RState :=
    { links := slide.elements.foldl (fun l e => l ++ renderElementLinks e) [],
      selectedLinkIndex := 0 }
  if st.links ≠ [] then highlightLink st 0 else st

/-- An operation on the renderer state, for the state-invariant claim:
rendering a slide, a navigation keypress, or a highlight call. -/
inductive ROp where
  | render (s : Slide)
  | navigate (d : Direction)
  | highlight (i : Int)

/-- Apply one renderer operation to the state. -/
def stepR (st : RState) : ROp → RState
  | ROp.render s => renderSlideState s
  | ROp.navigate d => navigateLinks st d
  | ROp.highlight i => highlightLink st i

/-- The fresh renderer state: class-field initializers links = [] and
selectedLinkIndex = 0. -/
def initR : RState := { links := [], selectedLinkIndex := 0 }

/-- Run a sequence of renderer operations from a fresh renderer. -/
def runR (ops : List ROp) : RState := ops.foldl stepR initR

/-- center_multiline_text of renderer.test.ts: each line is centered
independently by its own length; Int.fdiv models Math.floor of the real
division. -/
def center_multiline_text (lines : List Chars) (screen_width : Int) : List Int :=
  lines.map fun line => Int.fdiv (screen_width - (line.length : Int)) 2

/-- Outcome of startup in presentation.ts: either the process exits with
a status code after printing a message, or the interactive loop is
entered with the parsed slides and the first slide rendered. -/
inductive StartupResult where
  | exitWith (code : Nat) (message : String)
  | runLoop (slides : List Slide) (firstRendered : RState)
  deriving Repr, DecidableEq

/-- The startup decision of main in presentation.ts: parse the document;
with zero slides print "No slides found in presentation.md" and exit with
status 1; otherwise render the first slide and enter the keyboard loop. -/
def mainStartup (markdown : Chars) : StartupResult :=
  match parsePresentation markdown with
  | [] => StartupResult.exitWith 1 "No slides found in presentation.md"
  | s :: rest => StartupResult.runLoop (s :: rest) (renderSlideState s)

/-- Modelled from the spec's claim wording for the link-registration
contract: every link element, top-level or anywhere inside a bullet item
(second and later links of an item included), in the order encountered. -/
def specAllLinks (slide : Slide) : List (Chars × Chars) :=
  slide.elements.flatMap fun e =>
    match e with
    | SlideElement.link t u => [(t, u)]
    | SlideElement.bullets items =>
      items.flatMap fun item =>
        item.filterMap fun f =>
          match f with
          | Frag.link t u => some (t, u)
          | _ => none
    | _ => []

/-- The first link of a bullet item, if the item contains one. -/
def firstLinkOfItem (item : List Frag) : Option (Chars × Chars) :=
  (item.find? isLinkFrag).bind fun f =>
    match f with
    | Frag.link t u => some (t, u)
    | _ => none

/-- The amended link-registration contract: all top-level links, and the
first link of each bullet item that contains one, in the order
encountered. -/
def amendedLinks (slide : Slide) : List (Chars × Chars) :=
  slide.elements.flatMap fun e =>
    match e with
    | SlideElement.link t u => [(t, u)]
    | SlideElement.bullets items => items.filterMap firstLinkOfItem
    | _ => []

/-- Projection of a registered link entry to its text and url. -/
def entryPair (l : LinkEntry) : Chars × Chars := (l.linkText, l.url)

/-- A line on which the parseLine scanner finds no inline-span match at
any position: neither the link pattern nor the bold pattern matches at
any suffix. -/
def noSpan : Chars → Bool
  | [] => true
  | c :: rest =>
    (matchLink (c :: rest)).isNone && (matchBold (c :: rest)).isNone && noSpan rest

/-- Invariant of the parseSlide line loop: whenever a slide is under
construction, it has a non-empty title, or an element already pushed, or
an open bullet list still to be flushed. -/
def goodAcc (st : SlideAcc) : Prop :=
  ∀ s, st.cs = some s → s.title ≠ [] ∨ s.elements ≠ [] ∨ st.cbl ≠ none

/-- Invariant of the renderer state: the selected index is non-negative,
and strictly below the link count whenever links exist. -/
def InvR (st : RState) : Prop :=
  0 ≤ st.selectedLinkIndex
    ∧ (st.links ≠ [] → st.selectedLinkIndex < (st.links.length : Int))

/-- Apply navigateLinks "down" the given number of times. -/
def navDown : Nat → RState → RState
  | 0, st => st
  | Nat.succ n, st => navDown n (navigateLinks st Direction.down)

/-- A slide whose single bullet item holds two links, distinguishing the
code's link registration from the spec's. -/
def twoLinkSlide : Slide :=
  { title := chars "T",
    elements := [SlideElement.bullets
      [[Frag.link (chars "A") (chars "u1"), Frag.link (chars "B") (chars "u2")]]] }

/-- A renderer state with two links and the second selected, used to
exercise the navigation theorems at a concrete input. -/
def twoLinkState : RState :=
  { links := [{ linkText := chars "A", url := chars "u1", bg := normalBg },
              { linkText := chars "B", url := chars "u2", bg := normalBg }],
    selectedLinkIndex := 1 }

end Pres

namespace Pres

/-! Helper lemmas -/

/-- parseLine never returns an empty fragment list: a line with no
matches falls back to one plain text fragment. -/
lemma parseLine_ne_nil (content : Chars) : parseLine content ≠ [] := by
  show (if parseLineAux content 0 [] [] = [] then [Frag.text content false]
        else parseLineAux content 0 [] []) ≠ []
  split
  · simp
  · assumption

/-- The split helper produces at most one piece per input character plus
one. -/
lemma splitSubAux_length_le (sep : Chars) :
    ∀ (s : Chars) (skip : Nat) (acc : Chars) (out : List Chars),
      (splitSubAux sep s skip acc out).length ≤ s.length + out.length + 1 := by
  intro s
  induction s with
  | nil => intro skip acc out; simp [splitSubAux]
  | cons c rest ih =>
    intro skip acc out
    match skip with
    | Nat.succ k =>
      have := ih k acc out
      simp only [splitSubAux, List.length_cons]
      omega
    | 0 =>
      simp only [splitSubAux]
      split
      · have := ih (sep.length - 1) [] (acc.reverse :: out)
        simp only [List.length_cons] at this
        simp only [List.length_cons]
        omega
      · have := ih 0 (c :: acc) out
        simp only [List.length_cons]
        omega

/-- Splitting a document produces at most one block per character plus
one. -/
lemma splitOnSubstr_length_le (sep s : Chars) :
    (splitOnSubstr sep s).length ≤ s.length + 1 := by
  have := splitSubAux_length_le sep s 0 [] []
  simpa [splitOnSubstr] using this

/-- On a line with no inline-span match anywhere, the scanner accumulates
every character into the pending plain text. -/
lemma parseLineAux_noSpan :
    ∀ (s pend : Chars) (acc : List Frag), noSpan s = true →
      parseLineAux s 0 pend acc = (flushText (s.reverse ++ pend) acc).reverse := by
  intro s
  induction s with
  | nil => intro pend acc _; simp [parseLineAux]
  | cons c rest ih =>
    intro pend acc h
    simp only [noSpan, Bool.and_eq_true, Option.isNone_iff_eq_none] at h
    obtain ⟨⟨h1, h2⟩, h3⟩ := h
    simp only [parseLineAux, h1, h2]
    rw [ih (c :: pend) acc h3]
    simp

end Pres

/-! Claim theorems -/

namespace Pres

/-- C1: the spec and the parser tests expect a leading separator-delimited
key-value block at the start of a slide block to be consumed as
frontmatter; the parser has no frontmatter handling at all (Slide has no
frontmatter field), and on the test document it instead yields an extra
slide whose elements are the separator and key-value lines as plain
text.  This theorem evaluates the code at the failing input from
parser.test.ts. -/
theorem c1_frontmatter_is_plain_text :
    parsePresentation (chars "---\nfont: jsstickletters\nalign: center\n---\n# Title") =
      [{ title := [],
         elements := [SlideElement.text (chars "---") false,
                      SlideElement.text (chars "font: jsstickletters") false,
                      SlideElement.text (chars "align: center") false] },
       { title := chars "Title", elements := [] }] := by
  decide

/-- C6: parsePresentation is a total function of the input text (every
recursion in the embedding is structural); its result is a finite slide
list of length at most the input length plus one, and tokenization never
produces an empty fragment list — unrecognized syntax degrades to a plain
text fragment instead of failing. -/
theorem c6_parser_total :
    ∀ md : Chars, (parsePresentation md).length ≤ md.length + 1
      ∧ ∀ content : Chars, parseLine content ≠ [] := by
  intro md
  constructor
  · calc (parsePresentation md).length
        ≤ (splitOnSubstr sepChars md).length := List.length_filterMap_le _ _
      _ ≤ md.length + 1 := splitOnSubstr_length_le _ _
  · exact parseLine_ne_nil

/-- C7: tokenizing "A **B** C [D](E) F" yields exactly the five fragments
plain "A ", bold "B", plain " C ", link (D, E), plain " F" in order; and
any line on which neither inline pattern matches tokenizes to the single
plain text fragment holding the whole line. -/
theorem c7_inline_tokenization :
    parseLine (chars "A **B** C [D](E) F") =
      [Frag.text (chars "A ") false, Frag.text (chars "B") true,
       Frag.text (chars " C ") false, Frag.link (chars "D") (chars "E"),
       Frag.text (chars " F") false]
    ∧ ∀ line : Chars, noSpan line = true → parseLine line = [Frag.text line false] := by
  constructor
  · decide
  · intro line h
    unfold parseLine
    rw [parseLineAux_noSpan line [] [] h]
    by_cases hl : line = []
    · subst hl; simp [flushText]
    · simp [flushText, hl]

/-- Witness for C7's universally quantified part at a concrete line with
no inline-span markers. -/
theorem c7_witness :
    parseLine (chars "no spans here") = [Frag.text (chars "no spans here") false] :=
  c7_inline_tokenization.2 (chars "no spans here") (by decide)

/-- C9: when the parsed document has zero slides, startup is fatal: main
prints the message and exits with status 1 (non-zero), and the
interactive loop is never entered. -/
theorem c9_empty_document_fatal :
    ∀ md : Chars, parsePresentation md = [] →
      mainStartup md = StartupResult.exitWith 1 "No slides found in presentation.md"
      ∧ ∀ (slides : List Slide) (st : RState),
          mainStartup md ≠ StartupResult.runLoop slides st := by
  intro md h
  unfold mainStartup
  rw [h]
  exact ⟨rfl, fun _ _ hc => by cases hc⟩

/-- Witness for C9 at the empty document, which parses to zero slides. -/
theorem c9_witness :
    mainStartup (chars "") = StartupResult.exitWith 1 "No slides found in presentation.md" :=
  (c9_empty_document_fatal (chars "") (by decide)).1

/-- C3: each title line is centered independently of the others: the
i-th entry of center_multiline_text depends only on the i-th line and
equals the floor of (screen width minus line length) over two; the
literal example of the spec (length 5 on width 80 gives column 37) is
included. -/
theorem c3_centering :
    (∀ (lines : List Chars) (W : Int) (i : Nat) (h : i < lines.length),
        (center_multiline_text lines W).get? i =
          some (Int.fdiv (W - ((lines.get ⟨i, h⟩).length : Int)) 2))
    ∧ center_multiline_text [chars "HELLO"] 80 = [37] := by
  constructor
  · intro lines W i h
    unfold center_multiline_text
    rw [List.get?_map, List.get?_eq_get h]
    rfl
  · decide

/-- Witness for C3 at the spec's literal example: one line of length 5 on
a canvas of width 80 is placed at column 37. -/
theorem c3_witness :
    (center_multiline_text [chars "HELLO"] 80).get? 0 = some 37 := by
  have h := c3_centering.1 [chars "HELLO"] 80 0 (by decide)
  simpa using h

/-- filterMap keeps every element on which the function succeeds. -/
lemma length_filterMap_of_isSome {α β : Type} (f : α → Option β) :
    ∀ l : List α, (∀ b ∈ l, (f b).isSome) → (l.filterMap f).length = l.length := by
  intro l
  induction l with
  | nil => intro _; rfl
  | cons a l ih =>
    intro h
    have ha := h a (by simp)
    obtain ⟨b, hb⟩ := Option.isSome_iff_exists.mp ha
    have hl := ih fun x hx => h x (by simp [hx])
    simp [List.filterMap_cons, hb, hl]

/-- C5: a document built out of N+1 well-formed slide blocks joined by N
standalone separator lines (the separators being exactly the block
boundaries, which excludes any that would belong to a leading frontmatter
block) parses to exactly N+1 slides, namely the parses of the blocks in
source order. -/
theorem c5_separator_count :
    ∀ bs : List Chars, bs ≠ [] →
      (∀ b ∈ bs, (parseSlide b).isSome) →
      splitOnSubstr sepChars (List.intercalate sepChars bs) = bs →
      parsePresentation (List.intercalate sepChars bs) = bs.filterMap parseSlide
      ∧ (parsePresentation (List.intercalate sepChars bs)).length = bs.length := by
  intro bs _ hsome hsplit
  have h1 : parsePresentation (List.intercalate sepChars bs) = bs.filterMap parseSlide := by
    unfold parsePresentation
    rw [hsplit]
  refine ⟨h1, ?_⟩
  rw [h1]
  exact length_filterMap_of_isSome parseSlide bs hsome

/-- Witness for C5 with two one-line title blocks joined by one
separator: two slides come back, in order. -/
theorem c5_witness :
    parsePresentation (List.intercalate sepChars [chars "# A", chars "# B"]) =
      [chars "# A", chars "# B"].filterMap parseSlide
    ∧ (parsePresentation (List.intercalate sepChars [chars "# A", chars "# B"])).length = 2 :=
  c5_separator_count [chars "# A", chars "# B"] (by decide) (by decide) (by decide)

/-- Highlighting one entry does not change how many entries there are. -/
lemma markSelected_length : ∀ (n : Nat) (l : List LinkEntry),
    (markSelected n l).length = l.length := by
  intro n l
  induction l generalizing n with
  | nil => cases n <;> rfl
  | cons a l ih => cases n with
    | zero => rfl
    | succ k => simp [markSelected, ih k]

/-- highlightLink with an in-range index stores that index as the
selection. -/
lemma highlightLink_inrange (st : RState) (i : Int) (h0 : 0 ≤ i)
    (hlt : i < (st.links.length : Int)) :
    (highlightLink st i).selectedLinkIndex = i := by
  simp only [highlightLink, List.length_map]
  rw [if_pos ⟨h0, hlt⟩]

/-- highlightLink with an out-of-range index leaves the selection
unchanged. -/
lemma highlightLink_out (st : RState) (i : Int)
    (h : ¬(0 ≤ i ∧ i < (st.links.length : Int))) :
    (highlightLink st i).selectedLinkIndex = st.selectedLinkIndex := by
  simp only [highlightLink, List.length_map]
  rw [if_neg h]

/-- highlightLink never changes the number of links. -/
lemma highlightLink_links_length (st : RState) (i : Int) :
    (highlightLink st i).links.length = st.links.length := by
  simp only [highlightLink, List.length_map]
  split
  · simp [markSelected_length]
  · simp

/-- navigateLinks on an empty link list returns the state unchanged. -/
lemma navigateLinks_empty (st : RState) (d : Direction) (h : st.links = []) :
    navigateLinks st d = st := by
  unfold navigateLinks
  simp [h]

/-- On a non-empty link list, navigateLinks reduces to a highlightLink
call at the wrapped neighbour index. -/
lemma navigateLinks_eq (st : RState) (d : Direction) (hlen : st.links.length ≠ 0) :
    navigateLinks st d =
      highlightLink
        { st with selectedLinkIndex :=
            match d with
            | Direction.down => (st.selectedLinkIndex + 1) % (st.links.length : Int)
            | Direction.up =>
              (st.selectedLinkIndex - 1 + st.links.length) % (st.links.length : Int) }
        (match d with
         | Direction.down => (st.selectedLinkIndex + 1) % (st.links.length : Int)
         | Direction.up =>
           (st.selectedLinkIndex - 1 + st.links.length) % (st.links.length : Int)) := by
  unfold navigateLinks
  rw [if_neg hlen]

/-- On a non-empty link list, one navigateLinks step sets the selected
index to the wrapped neighbour and keeps the link count. -/
lemma navigateLinks_spec (st : RState) (d : Direction) (h : st.links ≠ []) :
    (navigateLinks st d).selectedLinkIndex =
      (match d with
       | Direction.down => (st.selectedLinkIndex + 1) % (st.links.length : Int)
       | Direction.up =>
         (st.selectedLinkIndex - 1 + st.links.length) % (st.links.length : Int))
    ∧ (navigateLinks st d).links.length = st.links.length := by
  have hlen : st.links.length ≠ 0 := by simpa [List.length_eq_zero] using h
  have hpos : (0 : Int) < (st.links.length : Int) := by
    exact_mod_cast Nat.pos_of_ne_zero hlen
  have hne : ((st.links.length : Int)) ≠ 0 := ne_of_gt hpos
  rw [navigateLinks_eq st d hlen]
  cases d with
  | down =>
    have h0 : (0 : Int) ≤ (st.selectedLinkIndex + 1) % (st.links.length : Int) :=
      Int.emod_nonneg _ hne
    have hlt : (st.selectedLinkIndex + 1) % (st.links.length : Int) <
        (st.links.length : Int) := Int.emod_lt_of_pos _ hpos
    exact ⟨highlightLink_inrange _ _ h0 hlt, highlightLink_links_length _ _⟩
  | up =>
    have h0 : (0 : Int) ≤
        (st.selectedLinkIndex - 1 + st.links.length) % (st.links.length : Int) :=
      Int.emod_nonneg _ hne
    have hlt : (st.selectedLinkIndex - 1 + st.links.length) % (st.links.length : Int) <
        (st.links.length : Int) := Int.emod_lt_of_pos _ hpos
    exact ⟨highlightLink_inrange _ _ h0 hlt, highlightLink_links_length _ _⟩

/-- Iterating navigateLinks "down" advances the in-range selected index
by the step count modulo the link count, keeping the link count. -/
lemma navDown_sel : ∀ (k : Nat) (st : RState), st.links ≠ [] →
    0 ≤ st.selectedLinkIndex → st.selectedLinkIndex < (st.links.length : Int) →
    (navDown k st).selectedLinkIndex =
      (st.selectedLinkIndex + k) % (st.links.length : Int)
    ∧ (navDown k st).links.length = st.links.length := by
  intro k
  induction k with
  | zero =>
    intro st _ h0 hlt
    refine ⟨?_, rfl⟩
    simpa using (Int.emod_eq_of_lt h0 hlt).symm
  | succ k ih =>
    intro st h h0 hlt
    have hlen : st.links.length ≠ 0 := by simpa [List.length_eq_zero] using h
    have hpos : (0 : Int) < (st.links.length : Int) := by
      exact_mod_cast Nat.pos_of_ne_zero hlen
    have hne : ((st.links.length : Int)) ≠ 0 := ne_of_gt hpos
    have hspec := navigateLinks_spec st Direction.down h
    set st' := navigateLinks st Direction.down with hst'
    have hsel' : st'.selectedLinkIndex =
        (st.selectedLinkIndex + 1) % (st.links.length : Int) := hspec.1
    have hlen' : st'.links.length = st.links.length := hspec.2
    have h' : st'.links ≠ [] := by
      intro he
      rw [he] at hlen'
      exact hlen hlen'.symm
    have h0' : 0 ≤ st'.selectedLinkIndex := by
      rw [hsel']; exact Int.emod_nonneg _ hne
    have hlt' : st'.selectedLinkIndex < (st'.links.length : Int) := by
      rw [hsel', hlen']; exact Int.emod_lt_of_pos _ hpos
    have hk := ih st' h' h0' hlt'
    refine ⟨?_, ?_⟩
    · show (navDown k st').selectedLinkIndex = _
      rw [hk.1, hlen', hsel', Int.emod_add_emod]
      congr 1
      push_cast
      ring
    · show (navDown k st').links.length = _
      rw [hk.2, hlen']

/-- C8: navigateLinks on an empty link list is a no-op; on a non-empty
list of length N a single step moves the selected index by one modulo N
(down adds one, up subtracts one, with wraparound), and N consecutive
down steps return an in-range selection to its original value. -/
theorem c8_navigate_wraparound :
    (∀ (st : RState) (d : Direction), st.links = [] → navigateLinks st d = st)
    ∧ (∀ st : RState, st.links ≠ [] →
        (navigateLinks st Direction.down).selectedLinkIndex =
          (st.selectedLinkIndex + 1) % (st.links.length : Int)
        ∧ (navigateLinks st Direction.up).selectedLinkIndex =
          (st.selectedLinkIndex - 1 + st.links.length) % (st.links.length : Int))
    ∧ (∀ st : RState, 0 ≤ st.selectedLinkIndex →
        st.selectedLinkIndex < (st.links.length : Int) →
        (navDown st.links.length st).selectedLinkIndex = st.selectedLinkIndex) := by
  refine ⟨navigateLinks_empty, ?_, ?_⟩
  · intro st h
    exact ⟨(navigateLinks_spec st Direction.down h).1,
           (navigateLinks_spec st Direction.up h).1⟩
  · intro st h0 hlt
    have h : st.links ≠ [] := by
      intro he
      rw [he] at hlt
      simp at hlt
      omega
    have hk := (navDown_sel st.links.length st h h0 hlt).1
    rw [hk]
    have : (st.selectedLinkIndex + (st.links.length : Int)) % (st.links.length : Int) =
        st.selectedLinkIndex % (st.links.length : Int) := by
      simpa using Int.add_mul_emod_self_left st.selectedLinkIndex (st.links.length : Int) 1
    rw [this]
    exact Int.emod_eq_of_lt h0 hlt

/-- Witness for C8: the empty-list no-op at a fresh state, and two down
steps on a two-link state with the second link selected coming back to
selection index one. -/
theorem c8_witness :
    navigateLinks { links := [], selectedLinkIndex := 0 } Direction.down =
      { links := [], selectedLinkIndex := 0 }
    ∧ (navDown twoLinkState.links.length twoLinkState).selectedLinkIndex =
        twoLinkState.selectedLinkIndex :=
  ⟨c8_navigate_wraparound.1 _ Direction.down rfl,
   c8_navigate_wraparound.2.2 twoLinkState (by decide) (by decide)⟩

/-- Folding an append-accumulating function is concatenation of the
per-element lists. -/
lemma foldl_append_flatMap {α β : Type} (f : α → List β) :
    ∀ (l : List α) (init : List β),
      l.foldl (fun acc e => acc ++ f e) init = init ++ l.flatMap f := by
  intro l
  induction l with
  | nil => intro init; simp
  | cons a l ih => intro init; simp [ih]

/-- Changing only the background of entries does not change their text
and url projection. -/
lemma map_entryPair_clear (b : String) :
    ∀ ls : List LinkEntry, (ls.map fun l => { l with bg := b }).map entryPair =
      ls.map entryPair := by
  intro ls
  induction ls with
  | nil => rfl
  | cons a ls ih => simp [entryPair, ih]

/-- Highlighting one entry does not change the text and url
projection. -/
lemma map_entryPair_markSelected :
    ∀ (n : Nat) (ls : List LinkEntry),
      (markSelected n ls).map entryPair = ls.map entryPair := by
  intro n ls
  induction ls generalizing n with
  | nil => cases n <;> rfl
  | cons a ls ih => cases n with
    | zero => simp [markSelected, entryPair]
    | succ k => simp [markSelected, entryPair, ih k]

/-- highlightLink does not change the text and url projection of the
link list. -/
lemma highlightLink_map_entryPair (st : RState) (i : Int) :
    (highlightLink st i).links.map entryPair = st.links.map entryPair := by
  simp only [highlightLink, List.length_map]
  split
  · rw [map_entryPair_markSelected]
    exact map_entryPair_clear normalBg st.links
  · exact map_entryPair_clear normalBg st.links

/-- The links registered for one bullet item are exactly the item's first
link, if it has one. -/
lemma linksOfItem_entryPair (item : List Frag) :
    (linksOfItem item).map entryPair = (firstLinkOfItem item).toList := by
  unfold linksOfItem firstLinkOfItem
  by_cases h : item.any isLinkFrag
  · rw [if_pos h]
    have hsome : (item.find? isLinkFrag).isSome := by
      rw [List.find?_isSome]
      simpa [List.any_eq_true] using h
    obtain ⟨f, hf⟩ := Option.isSome_iff_exists.mp hsome
    have hp : isLinkFrag f := List.find?_some hf
    cases f with
    | text c b => simp [isLinkFrag] at hp
    | link t u => simp [hf, entryPair]
  · rw [if_neg h]
    have : item.find? isLinkFrag = none := by
      rw [List.find?_eq_none]
      intro x hx hpx
      exact h (List.any_eq_true.mpr ⟨x, hx, hpx⟩)
    simp [this]

/-- A flatMap over option-to-list is a filterMap. -/
lemma flatMap_toList_eq_filterMap {α β : Type} (f : α → Option β) :
    ∀ l : List α, (l.flatMap fun a => (f a).toList) = l.filterMap f := by
  intro l
  induction l with
  | nil => rfl
  | cons a l ih => cases h : f a <;> simp [h, ih]

/-- The links registered for one element project to the amended
contract's links for that element. -/
lemma renderElementLinks_entryPair (e : SlideElement) :
    (renderElementLinks e).map entryPair =
      (match e with
       | SlideElement.link t u => [(t, u)]
       | SlideElement.bullets items => items.filterMap firstLinkOfItem
       | _ => []) := by
  cases e with
  | link t u => simp [renderElementLinks, entryPair]
  | bullets items =>
    simp only [renderElementLinks, List.map_flatMap]
    rw [← flatMap_toList_eq_filterMap firstLinkOfItem items]
    congr 1
    funext item
    exact linksOfItem_entryPair item
  | heading level c => rfl
  | text c b => rfl
  | image a f => rfl

/-- The full link list renderSlide builds, before highlighting, projects
to the amended contract's link list. -/
lemma renderSlide_base_links (slide : Slide) :
    ((slide.elements.foldl (fun l e => l ++ renderElementLinks e) []).map entryPair) =
      amendedLinks slide := by
  rw [foldl_append_flatMap renderElementLinks slide.elements []]
  simp only [List.nil_append, List.map_flatMap, amendedLinks]
  congr 1
  funext e
  exact renderElementLinks_entryPair e

/-- C2 fails on the code: for the slide whose single bullet item holds
two links, renderSlide registers only the first link of the item, not
both, so the registered list differs from the all-links list the claim
demands. -/
theorem c2_counterexample_second_link_dropped :
    (renderSlideState twoLinkSlide).links.map entryPair ≠ specAllLinks twoLinkSlide := by
  decide

/-- After highlighting index zero of a non-empty link list, the first
entry carries the highlight background. -/
lemma head_bg_after_highlight0 :
    ∀ ls : List LinkEntry, ls ≠ [] →
      ((highlightLink { links := ls, selectedLinkIndex := 0 } 0).links.head?.map
        LinkEntry.bg) = some selectedBg := by
  intro ls h
  cases ls with
  | nil => exact absurd rfl h
  | cons x xs =>
    simp only [highlightLink, List.length_map]
    rw [if_pos]
    · simp [markSelected]
    · refine ⟨le_refl 0, ?_⟩
      simp

/-- C2 amended: renderSlide registers, in the order encountered during
layout, every top-level link element and the first link of each bullet
item that contains a link (later links of the same item are not
registered); and when the registered list is non-empty the entry at
index 0 is stored as selected and carries the highlight background. -/
theorem c2_first_link_per_bullet_registered :
    ∀ slide : Slide,
      (renderSlideState slide).links.map entryPair = amendedLinks slide
      ∧ ((renderSlideState slide).links ≠ [] →
          (renderSlideState slide).selectedLinkIndex = 0
          ∧ ((renderSlideState slide).links.head?.map LinkEntry.bg) = some selectedBg) := by
  intro slide
  unfold renderSlideState
  by_cases hb : slide.elements.foldl (fun l e => l ++ renderElementLinks e) [] = []
  · rw [if_neg (by simp [hb])]
    refine ⟨?_, ?_⟩
    · rw [← renderSlide_base_links slide]
    · intro hne
      exact absurd hb hne
  · rw [if_pos (by simpa using hb)]
    refine ⟨?_, ?_⟩
    · rw [highlightLink_map_entryPair]
      exact renderSlide_base_links slide
    · intro _
      have hpos : (0 : Int) <
          ((slide.elements.foldl (fun l e => l ++ renderElementLinks e) []).length : Int) := by
        have := List.length_pos.mpr hb
        exact_mod_cast this
      exact ⟨highlightLink_inrange _ 0 (le_refl 0) hpos,
             head_bg_after_highlight0 _ hb⟩

/-- Witness for C2's amended theorem at the two-link bullet slide. -/
theorem c2_amended_witness :
    (renderSlideState twoLinkSlide).selectedLinkIndex = 0
    ∧ ((renderSlideState twoLinkSlide).links.head?.map LinkEntry.bg) = some selectedBg :=
  (c2_first_link_per_bullet_registered twoLinkSlide).2 (by decide)

/-- renderSlide establishes the selection invariant from any previous
state: the selection is reset to zero and, when links exist, zero is in
range. -/
lemma renderSlideState_inv (s : Slide) : InvR (renderSlideState s) := by
  unfold renderSlideState InvR
  by_cases hb : s.elements.foldl (fun l e => l ++ renderElementLinks e) [] = []
  · rw [if_neg (by simp [hb])]
    exact ⟨le_refl 0, fun hne => absurd hb hne⟩
  · rw [if_pos (by simpa using hb)]
    have hpos : (0 : Int) <
        ((s.elements.foldl (fun l e => l ++ renderElementLinks e) []).length : Int) := by
      have := List.length_pos.mpr hb
      exact_mod_cast this
    have hsel := highlightLink_inrange
      { links := s.elements.foldl (fun l e => l ++ renderElementLinks e) [],
        selectedLinkIndex := 0 } 0 (le_refl 0) hpos
    have hlen := highlightLink_links_length
      { links := s.elements.foldl (fun l e => l ++ renderElementLinks e) [],
        selectedLinkIndex := 0 } 0
    rw [hsel]
    exact ⟨le_refl 0, fun _ => by rw [hlen]; exact hpos⟩

/-- highlightLink preserves the selection invariant. -/
lemma highlightLink_inv (st : RState) (i : Int) (h : InvR st) :
    InvR (highlightLink st i) := by
  have hlen := highlightLink_links_length st i
  by_cases hir : 0 ≤ i ∧ i < (st.links.length : Int)
  · have hsel := highlightLink_inrange st i hir.1 hir.2
    exact ⟨by rw [hsel]; exact hir.1,
           fun _ => by rw [hsel, hlen]; exact hir.2⟩
  · have hsel := highlightLink_out st i hir
    refine ⟨by rw [hsel]; exact h.1, fun hne => ?_⟩
    rw [hsel, hlen]
    apply h.2
    intro he
    rw [he] at hlen
    simp [List.length_eq_zero] at hlen
    exact hne hlen

/-- navigateLinks preserves the selection invariant. -/
lemma navigateLinks_inv (st : RState) (d : Direction) (h : InvR st) :
    InvR (navigateLinks st d) := by
  by_cases he : st.links = []
  · rw [navigateLinks_empty st d he]
    exact h
  · have hspec := navigateLinks_spec st d he
    have hlen : st.links.length ≠ 0 := by simpa [List.length_eq_zero] using he
    have hpos : (0 : Int) < (st.links.length : Int) := by
      exact_mod_cast Nat.pos_of_ne_zero hlen
    have hne : ((st.links.length : Int)) ≠ 0 := ne_of_gt hpos
    refine ⟨?_, fun _ => ?_⟩
    · rw [hspec.1]
      cases d <;> exact Int.emod_nonneg _ hne
    · rw [hspec.1, hspec.2]
      cases d <;> exact Int.emod_lt_of_pos _ hpos

/-- Every renderer operation preserves the selection invariant. -/
lemma stepR_inv (st : RState) (op : ROp) (h : InvR st) : InvR (stepR st op) := by
  cases op with
  | render s => exact renderSlideState_inv s
  | navigate d => exact navigateLinks_inv st d h
  | highlight i => exact highlightLink_inv st i h

/-- Any operation sequence from the fresh renderer keeps the
invariant. -/
lemma runR_inv (ops : List ROp) : InvR (runR ops) := by
  have hgen : ∀ (l : List ROp) (st : RState), InvR st → InvR (l.foldl stepR st) := by
    intro l
    induction l with
    | nil => intro st h; exact h
    | cons op l ih => intro st h; exact ih _ (stepR_inv st op h)
  exact hgen ops initR ⟨le_refl 0, fun hne => absurd rfl hne⟩

/-- Under the invariant, getSelectedLink succeeds exactly when links
exist. -/
lemma getSelectedLink_isSome (st : RState) (h : InvR st) :
    (getSelectedLink st).isSome = true ↔ st.links ≠ [] := by
  unfold getSelectedLink
  by_cases he : st.links = []
  · rw [if_neg]
    · simp [he]
    · rw [he]
      intro hc
      have := lt_of_le_of_lt hc.1 hc.2
      simp at this
  · rw [if_pos ⟨h.1, h.2 he⟩]
    have hlt : st.selectedLinkIndex.toNat < st.links.length :=
      (Int.toNat_lt h.1).mpr (h.2 he)
    rw [List.get?_eq_get hlt]
    simpa using he

/-- C10: starting from a fresh renderer, any sequence of renderSlide,
navigateLinks and highlightLink operations keeps the selected index
non-negative and, when links exist, below the link count; under that
state getSelectedLink returns a link exactly when links exist, and an
out-of-range highlightLink argument leaves the selected index
unchanged. -/
theorem c10_selection_in_range :
    ∀ ops : List ROp,
      (0 ≤ (runR ops).selectedLinkIndex
        ∧ ((runR ops).links ≠ [] →
            (runR ops).selectedLinkIndex < ((runR ops).links.length : Int)))
      ∧ ((getSelectedLink (runR ops)).isSome = true ↔ (runR ops).links ≠ [])
      ∧ ∀ i : Int, ¬(0 ≤ i ∧ i < ((runR ops).links.length : Int)) →
          (highlightLink (runR ops) i).selectedLinkIndex =
            (runR ops).selectedLinkIndex := by
  intro ops
  have h := runR_inv ops
  exact ⟨h, getSelectedLink_isSome _ h, fun i hi => highlightLink_out _ i hi⟩

/-- Witness for C10 on a concrete operation sequence: render the
two-link slide, navigate down, then call highlightLink with the
out-of-range index five. -/
theorem c10_witness :
    (0 ≤ (runR [ROp.render twoLinkSlide, ROp.navigate Direction.down]).selectedLinkIndex)
    ∧ ((getSelectedLink (runR [ROp.render twoLinkSlide, ROp.navigate Direction.down])).isSome
        = true ↔ (runR [ROp.render twoLinkSlide, ROp.navigate Direction.down]).links ≠ [])
    ∧ (highlightLink (runR [ROp.render twoLinkSlide, ROp.navigate Direction.down])
          5).selectedLinkIndex =
        (runR [ROp.render twoLinkSlide, ROp.navigate Direction.down]).selectedLinkIndex :=
  ⟨(c10_selection_in_range [ROp.render twoLinkSlide, ROp.navigate Direction.down]).1.1,
   (c10_selection_in_range [ROp.render twoLinkSlide, ROp.navigate Direction.down]).2.1,
   (c10_selection_in_range [ROp.render twoLinkSlide, ROp.navigate Direction.down]).2.2
     5 (by decide)⟩

/-- A trimmed string is empty exactly when every character is
whitespace. -/
lemma trimChars_eq_nil_iff (l : Chars) : trimChars l = [] ↔ ∀ c ∈ l, isWS c := by
  unfold trimChars
  rw [List.reverse_eq_nil_iff, List.dropWhile_eq_nil_iff]
  constructor
  · intro h c hc
    rcases (List.mem_append.mp
        (by rw [List.takeWhile_append_dropWhile]; exact hc :
          c ∈ l.takeWhile isWS ++ l.dropWhile isWS)) with hm | hm
    · exact List.mem_takeWhile_imp hm
    · exact h c (List.mem_reverse.mpr hm)
  · intro h c hc
    exact h c ((List.dropWhile_sublist _).subset (List.mem_reverse.mp hc))

/-- The first element surviving dropWhile falsifies the predicate. -/
lemma head?_dropWhile_not (p : Char → Bool) :
    ∀ (l : Chars) (c : Char), (l.dropWhile p).head? = some c → p c = false := by
  intro l
  induction l with
  | nil => intro c h; simp at h
  | cons a as ih =>
    intro c h
    rw [List.dropWhile_cons] at h
    split at h
    · exact ih c h
    · simp at h
      subst h
      simpa using ‹¬ p a = true›

/-- The last character of a non-empty trimmed string is not
whitespace. -/
lemma trimChars_getLast?_not_ws (l : Chars) (c : Char)
    (h : (trimChars l).getLast? = some c) : isWS c = false := by
  unfold trimChars at h
  rw [List.getLast?_reverse] at h
  exact head?_dropWhile_not isWS _ c h

/-- A trimmed line of the form hash-space-rest has a non-blank rest: the
title extracted from an H1 line is never empty. -/
lemma trim_title_ne_nil (line rest : Chars)
    (h : trimChars line = '#' :: ' ' :: rest) : trimChars rest ≠ [] := by
  intro hnil
  have hall : ∀ c ∈ rest, isWS c := (trimChars_eq_nil_iff rest).mp hnil
  cases rest with
  | nil =>
    have hlast : (trimChars line).getLast? = some ' ' := by rw [h]; rfl
    have := trimChars_getLast?_not_ws line ' ' hlast
    simp [isWS] at this
  | cons d ds =>
    have hne : d :: ds ≠ ([] : Chars) := by simp
    have hlast : (trimChars line).getLast? = some ((d :: ds).getLast hne) := by
      rw [h]
      rw [List.getLast?_cons_cons, List.getLast?_cons_cons]
      exact List.getLast?_eq_getLast _ hne
    have hfalse := trimChars_getLast?_not_ws line _ hlast
    have htrue := hall _ (List.getLast_mem hne)
    rw [htrue] at hfalse
    cases hfalse

/-- processLine preserves the parse-state invariant. -/
lemma processLine_good (st : SlideAcc) (line : Chars) (h : goodAcc st) :
    goodAcc (processLine st line) := by
  obtain ⟨cs, cbl⟩ := st
  by_cases h1 : trimChars line = []
  · cases cs with
    | none =>
      have he : processLine ⟨none, cbl⟩ line = ⟨none, cbl⟩ := by
        simp [processLine, h1]
      rw [he]
      intro s hs
      simp at hs
    | some s0 =>
      cases cbl with
      | none =>
        have he : processLine ⟨some s0, none⟩ line = ⟨some s0, none⟩ := by
          simp [processLine, h1]
        rw [he]
        intro s hs
        simp at hs
        subst hs
        rcases h s0 rfl with ht | hel | hc
        · exact Or.inl ht
        · exact Or.inr (Or.inl hel)
        · exact absurd rfl hc
      | some items =>
        have he : processLine ⟨some s0, some items⟩ line =
            ⟨some (pushBullets s0 (some items)), none⟩ := by
          simp [processLine, h1]
        rw [he]
        intro s hs
        simp at hs
        subst hs
        exact Or.inr (Or.inl (by simp [pushBullets]))
  · by_cases h2 : ['#', ' '].isPrefixOf (trimChars line) = true
    · obtain ⟨rest, hrest⟩ : ∃ rest, trimChars line = '#' :: ' ' :: rest := by
        obtain ⟨t, ht⟩ := List.isPrefixOf_iff_prefix.mp h2
        exact ⟨t, ht.symm⟩
      cases cs with
      | none =>
        have he : processLine ⟨none, cbl⟩ line =
            ⟨some { title := trimChars ((trimChars line).drop 2), elements := [] }, cbl⟩ := by
          simp [processLine, h1, h2]
        rw [he]
        intro s hs
        simp at hs
        subst hs
        refine Or.inl ?_
        have hdrop : (trimChars line).drop 2 = rest := by rw [hrest]; rfl
        rw [hdrop]
        exact trim_title_ne_nil line rest hrest
      | some s0 =>
        have he : processLine ⟨some s0, cbl⟩ line =
            ⟨some { pushBullets s0 cbl with elements :=
                (pushBullets s0 cbl).elements ++
                  [SlideElement.heading 1 (trimChars ((trimChars line).drop 2))] },
              none⟩ := by
          simp [processLine, h1, h2]
        rw [he]
        intro s hs
        simp at hs
        subst hs
        exact Or.inr (Or.inl (by simp))
    · by_cases h3 : ['#', '#', ' '].isPrefixOf (trimChars line) = true
      · have he : processLine ⟨cs, cbl⟩ line =
            ⟨some { pushBullets (processDefault cs) cbl with elements :=
                (pushBullets (processDefault cs) cbl).elements ++
                  [SlideElement.heading 2 (trimChars ((trimChars line).drop 3))] },
              none⟩ := by
          cases cs <;> simp [processLine, processDefault, h1, h2, h3]
        rw [he]
        intro s hs
        simp at hs
        subst hs
        exact Or.inr (Or.inl (by simp))
      · by_cases h4 : ['#', '#', '#', ' '].isPrefixOf (trimChars line) = true
        · have he : processLine ⟨cs, cbl⟩ line =
              ⟨some { pushBullets (processDefault cs) cbl with elements :=
                  (pushBullets (processDefault cs) cbl).elements ++
                    [SlideElement.heading 3 (trimChars ((trimChars line).drop 4))] },
                none⟩ := by
            cases cs <;> simp [processLine, processDefault, h1, h2, h3, h4]
          rw [he]
          intro s hs
          simp at hs
          subst hs
          exact Or.inr (Or.inl (by simp))
        · cases himg : matchImage (trimChars line) with
          | some p =>
            have he : processLine ⟨cs, cbl⟩ line =
                ⟨some { pushBullets (processDefault cs) cbl with elements :=
                    (pushBullets (processDefault cs) cbl).elements ++
                      [SlideElement.image p.1 p.2] },
                  none⟩ := by
              cases cs <;> simp [processLine, processDefault, h1, h2, h3, h4, himg]
            rw [he]
            intro s hs
            simp at hs
            subst hs
            exact Or.inr (Or.inl (by simp))
          | none =>
            by_cases h5 : ['-', ' '].isPrefixOf (trimChars line) = true
                ∨ ['*', ' '].isPrefixOf (trimChars line) = true
            · have he : processLine ⟨cs, cbl⟩ line =
                  ⟨some (processDefault cs),
                    some ((cbl.getD []) ++
                      [parseLine (trimChars ((trimChars line).drop 2))])⟩ := by
                rcases h5 with h5 | h5 <;>
                  cases cs <;>
                    simp [processLine, processDefault, h1, h2, h3, h4, himg, h5]
              rw [he]
              intro s hs
              exact Or.inr (Or.inr (by simp))
            · rw [not_or] at h5
              have he : processLine ⟨cs, cbl⟩ line =
                  ⟨some { pushBullets (processDefault cs) cbl with elements :=
                      ((pushBullets (processDefault cs) cbl).elements ++
                        List.map fragToElement (parseLine (trimChars line))) },
                    none⟩ := by
                cases cs <;>
                  simp [processLine, processDefault, h1, h2, h3, h4, himg, h5.1, h5.2]
              rw [he]
              intro s hs
              simp at hs
              subst hs
              refine Or.inr (Or.inl ?_)
              simp only [ne_eq, List.append_eq_nil, not_and]
              intro _
              simp [parseLine_ne_nil]

/-- Blank lines before any content leave the parse state untouched. -/
lemma processLine_blank_none (cbl : Option (List (List Frag))) (line : Chars)
    (h : trimChars line = []) :
    processLine ⟨none, cbl⟩ line = ⟨none, cbl⟩ := by
  simp [processLine, h]

/-- A block of only blank lines never starts a slide. -/
lemma foldl_blank_lines :
    ∀ lines : List Chars, (∀ l ∈ lines, trimChars l = []) →
      lines.foldl processLine ⟨none, none⟩ = ⟨none, none⟩ := by
  intro lines
  induction lines with
  | nil => intro _; rfl
  | cons l ls ih =>
    intro h
    have hl : trimChars l = [] := h l (by simp)
    show (ls.foldl processLine (processLine ⟨none, none⟩ l)) = _
    rw [processLine_blank_none none l hl]
    exact ih fun x hx => h x (by simp [hx])

/-- The line loop keeps the parse-state invariant from the empty
state. -/
lemma foldl_processLine_good :
    ∀ (lines : List Chars) (st : SlideAcc), goodAcc st →
      goodAcc (lines.foldl processLine st) := by
  intro lines
  induction lines with
  | nil => intro st h; exact h
  | cons l ls ih =>
    intro st h
    exact ih (processLine st l) (processLine_good st l h)

/-- Any slide parseSlide returns has a non-empty title or at least one
element. -/
lemma parseSlide_good (block : Chars) (s : Slide) (h : parseSlide block = some s) :
    s.title ≠ [] ∨ s.elements ≠ [] := by
  have h' : (if splitOnSubstr ['\n'] (trimChars block) = [] then none
      else
        match ((splitOnSubstr ['\n'] (trimChars block)).foldl processLine
            { cs := none, cbl := none }).cs with
        | some s =>
          some (pushBullets s
            ((splitOnSubstr ['\n'] (trimChars block)).foldl processLine
              { cs := none, cbl := none }).cbl)
        | none => none) = some s := h
  split at h'
  · cases h'
  · have hg : goodAcc ((splitOnSubstr ['\n'] (trimChars block)).foldl processLine
        { cs := none, cbl := none }) :=
      foldl_processLine_good _ _ (fun s hs => by cases hs)
    split at h'
    · rename_i s0 hcs
      have hs0 := hg s0 hcs
      injection h' with h''
      subst h''
      rcases hs0 with ht | hel | hc
      · cases hcbl : ((splitOnSubstr ['\n'] (trimChars block)).foldl processLine
            { cs := none, cbl := none }).cbl with
        | none => exact Or.inl (by simpa [pushBullets] using ht)
        | some items => exact Or.inr (by simp [pushBullets])
      · cases hcbl : ((splitOnSubstr ['\n'] (trimChars block)).foldl processLine
            { cs := none, cbl := none }).cbl with
        | none => exact Or.inr (by simpa [pushBullets] using hel)
        | some items => exact Or.inr (by simp [pushBullets])
      · cases hcbl : ((splitOnSubstr ['\n'] (trimChars block)).foldl processLine
            { cs := none, cbl := none }).cbl with
        | none => exact absurd hcbl hc
        | some items => exact Or.inr (by simp [pushBullets])
    · cases h'

/-- C4: a slide block with no non-blank content parses to nothing (the
block is dropped rather than yielding a slide), and no document ever
parses to a slide that has both an empty title and no elements. -/
theorem c4_empty_block_dropped :
    (∀ block : Chars,
        (∀ l ∈ splitOnSubstr ['\n'] (trimChars block), trimChars l = []) →
        parseSlide block = none)
    ∧ ∀ (md : Chars) (s : Slide), s ∈ parsePresentation md →
        ¬(s.title = [] ∧ s.elements = []) := by
  constructor
  · intro block h
    show (if splitOnSubstr ['\n'] (trimChars block) = [] then none
        else
          match ((splitOnSubstr ['\n'] (trimChars block)).foldl processLine
              { cs := none, cbl := none }).cs with
          | some s =>
            some (pushBullets s
              ((splitOnSubstr ['\n'] (trimChars block)).foldl processLine
                { cs := none, cbl := none }).cbl)
          | none => none) = none
    split
    · rfl
    · rw [foldl_blank_lines _ h]
  · intro md s hmem
    obtain ⟨b, _, hb⟩ := List.mem_filterMap.mp hmem
    intro ⟨ht, he⟩
    rcases parseSlide_good b s hb with hc | hc
    · exact hc ht
    · exact hc he

/-- Witness for C4: a block holding a single blank line parses to
nothing, and the first slide of the two-separator document is not
empty-titled-and-elementless. -/
theorem c4_witness :
    parseSlide (chars "\n") = none
    ∧ ¬(({ title := chars "Slide 1", elements := [] } : Slide).title = []
        ∧ ({ title := chars "Slide 1", elements := [] } : Slide).elements = []) :=
  ⟨c4_empty_block_dropped.1 (chars "\n") (by decide),
   c4_empty_block_dropped.2 (chars "# Slide 1\n\n---\n\n---\n\n# Slide 2")
     { title := chars "Slide 1", elements := [] } (by decide)⟩

end Pres
